import Mathlib

/-!
Shallow embedding of the logspout-logstash adapter (`logstash.go`).

Go strings are modelled as `List Char`; a container's environment is a
`List (List Char)` of `KEY=VALUE` entries.  Go `map` values are modelled as
association lists with Go-map assignment semantics (`mapSet`: overwrite the
existing entry if the key is present, otherwise add a new one).  A Go `nil`
map is modelled as `none : Option (List (k × v))`: reading from a `nil` map
is fine (empty), while writing into one is a runtime panic, modelled by
functions returning `Option`/`none`.  Likewise an out-of-range slice index
(`kv[1]` on a one-element slice) is a panic, modelled as `none`.

The source file carries two revisions of the adapter.  Revision one defines
`GetContainerTags` (appending a split-segment list for each
`LOGSTASH_TAGS=` entry and one flattened tag per `MARATHON_APP_LABEL_`
entry) and `GetMarathonInfo` (a label map).  Revision two defines
`GetMarathonData` (all four scheduler facets on an uninitialised
`MarathonData` record).  Both are embedded below under their Go names.
-/

/-- Go `strings.HasPrefix s pre`. -/
def goHasPre (s pre : List Char) : Bool :=
  pre.isPrefixOf s

/-- Go `strings.TrimPrefix s pre`: drop `pre` when it is a prefix, else return `s`. -/
def goTrimPre (s pre : List Char) : List Char :=
  if goHasPre s pre then s.drop pre.length else s

/-- Go `strings.Split s sep` for a one-character separator: `List.splitOn`
agrees with Go (splitting the empty string yields one empty segment). -/
def goSplit (s : List Char) (sep : Char) : List (List Char) :=
  s.splitOn sep

/-- Go `strings.Replace s "=" "_" -1`: replace every occurrence. -/
def goReplaceAllEq (s : List Char) : List Char :=
  s.map (fun c => if c = '=' then '_' else c)

/-- The `LOGSTASH_TAGS=` environment key, with its trailing `=`. -/
def tagEnvKey : List Char := "LOGSTASH_TAGS=".data

/-- The `MARATHON_APP_LABEL_` environment key. -/
def labelEnvKey : List Char := "MARATHON_APP_LABEL_".data

/-- One iteration of the tag scan of revision one's `GetContainerTags`:
what entry `e` appends to the accumulated tag list. -/
def tagContrib (e : List Char) : List (List Char) :=
  if goHasPre e tagEnvKey then
    goSplit (goTrimPre e tagEnvKey) ','
  else if goHasPre e labelEnvKey then
    [goReplaceAllEq (goTrimPre e labelEnvKey)]
  else
    []

/-- The environment scan of revision one's `GetContainerTags` (its `for`
loop over `c.Config.Env`, starting from `tags = []string` and appending). -/
def scanTags (env : List (List Char)) : List (List Char) :=
  env.foldl (fun tags e => tags ++ tagContrib e) []

/-- A container as the adapter sees it: identifier plus environment list. -/
structure Container where
  id : List Char
  env : List (List Char)
deriving DecidableEq

/-- The adapter's `containerTags` cache (`map[string][]string`). -/
abbrev TagCache := List (List Char × List (List Char))

/-- Go map read `m[k]` with its `ok` flag, on the association-list model. -/
def mapLookup {v : Type} (m : List (List Char × v)) (k : List Char) : Option v :=
  (m.find? (fun p => p.1 == k)).map (fun p => p.2)

/-- Go map assignment `m[k] = val`: overwrite if present, else add. -/
def mapSet {v : Type} (m : List (List Char × v)) (k : List Char) (val : v) :
    List (List Char × v) :=
  if m.any (fun p => p.1 == k) then
    m.map (fun p => if p.1 == k then (p.1, val) else p)
  else
    m ++ [(k, val)]

/-- Revision one's `GetContainerTags`: on a cache hit return the cached
tags and leave the cache alone; on a miss scan the environment once, store
the result under the container's identifier and return it.  The third
component counts how many environment entries the call scanned (zero on a
hit), the call-count probe for the caching claims. -/
def GetContainerTags (cache : TagCache) (c : Container) :
    List (List Char) × TagCache × Nat :=
  match mapLookup cache c.id with
  | some tags => (tags, cache, 0)
  | none =>
    let tags := scanTags c.env
    (tags, mapSet cache c.id tags, c.env.length)

/-- Revision one's `GetMarathonInfo`: build a label map from the
`MARATHON_APP_LABEL_` entries.  The entry is split on `=` and indexed at
positions `0` and `1`; when the split yields fewer than two segments the
index `kv[1]` is out of range, a Go panic, modelled as `none`. -/
def GetMarathonInfo (env : List (List Char)) :
    Option (List (List Char × List Char)) :=
  env.foldl
    (fun acc e =>
      acc.bind (fun m =>
        if goHasPre e labelEnvKey then
          match goSplit (goTrimPre e labelEnvKey) '=' with
          | k :: val :: _ => some (mapSet m k val)
          | _ => none
        else
          some m))
    (some [])

/-- Revision two's `MarathonData` record.  Its two map facets start out as
Go `nil` maps (`none`); the string facets start out empty. -/
structure MarathonData where
  version : List Char := []
  resource : Option (List (List Char × List Char)) := none
  id : List Char := []
  label : Option (List (List Char × List Char)) := none
  image : List Char := []
deriving DecidableEq

/-- Assignment into a possibly-`nil` Go map: writing into a `nil` map
panics (`none`); otherwise the entry is set. -/
def nilMapSet (m : Option (List (List Char × List Char)))
    (k v : List Char) : Option (List (List Char × List Char)) :=
  match m with
  | none => none
  | some m => some (mapSet m k v)

/-- The remaining typed environment keys of revision two's `GetMarathonData`. -/
def cpusEnvKey : List Char := "MARATHON_APP_RESOURCE_CPUS=".data

/-- The `MARATHON_APP_RESOURCE_MEM=` environment key. -/
def memEnvKey : List Char := "MARATHON_APP_RESOURCE_MEM=".data

/-- The `MARATHON_APP_RESOURCE_DISK=` environment key. -/
def diskEnvKey : List Char := "MARATHON_APP_RESOURCE_DISK=".data

/-- The `MARATHON_APP_ID=` environment key. -/
def idEnvKey : List Char := "MARATHON_APP_ID=".data

/-- The `MARATHON_APP_VERSION=` environment key. -/
def versionEnvKey : List Char := "MARATHON_APP_VERSION=".data

/-- The `MARATHON_APP_DOCKER_IMAGE=` environment key. -/
def imageEnvKey : List Char := "MARATHON_APP_DOCKER_IMAGE=".data

/-- One iteration of revision two's `GetMarathonData` scan. -/
def marathonDataStep (m : MarathonData) (e : List Char) : Option MarathonData :=
  if goHasPre e labelEnvKey then
    match goSplit (goTrimPre e labelEnvKey) '=' with
    | k :: v :: _ => (nilMapSet m.label k v).map (fun l => { m with label := some l })
    | _ => none
  else if goHasPre e cpusEnvKey then
    (nilMapSet m.resource "cpus".data (goTrimPre e cpusEnvKey)).map
      (fun r => { m with resource := some r })
  else if goHasPre e memEnvKey then
    (nilMapSet m.resource "mem".data (goTrimPre e memEnvKey)).map
      (fun r => { m with resource := some r })
  else if goHasPre e diskEnvKey then
    (nilMapSet m.resource "disk".data (goTrimPre e diskEnvKey)).map
      (fun r => { m with resource := some r })
  else if goHasPre e idEnvKey then
    some { m with id := goTrimPre e idEnvKey }
  else if goHasPre e versionEnvKey then
    some { m with version := goTrimPre e versionEnvKey }
  else if goHasPre e imageEnvKey then
    some { m with image := goTrimPre e imageEnvKey }
  else
    some m

/-- Revision two's `GetMarathonData`: scan the environment starting from the
zero value `MarathonData` record (whose `Resource` and `Label` maps are
`nil`); any write into one of those maps, or an out-of-range `kv[1]`, is a
panic (`none`). -/
def GetMarathonData (env : List (List Char)) : Option MarathonData :=
  env.foldl (fun acc e => acc.bind (fun m => marathonDataStep m e)) (some {})

/-! ### Characterising the tag scan -/

theorem scanTags_acc (env : List (List Char)) (acc : List (List Char)) :
    env.foldl (fun tags e => tags ++ tagContrib e) acc = acc ++ scanTags env := by
  induction env generalizing acc with
  | nil => simp [scanTags]
  | cons e env ih =>
    rw [List.foldl_cons, ih]
    have h2 : scanTags (e :: env) = tagContrib e ++ scanTags env := by
      rw [scanTags, List.foldl_cons, List.nil_append, ih]
    rw [h2, List.append_assoc]

theorem scanTags_cons (e : List Char) (env : List (List Char)) :
    scanTags (e :: env) = tagContrib e ++ scanTags env := by
  rw [scanTags, List.foldl_cons, List.nil_append, scanTags_acc]

theorem scanTags_nil : scanTags [] = [] := rfl

theorem scanTags_middle (xs ys : List (List Char)) (e : List Char) :
    scanTags (xs ++ e :: ys) = scanTags xs ++ tagContrib e ++ scanTags ys := by
  induction xs with
  | nil => simp [scanTags_cons, scanTags_nil]
  | cons x xs ih => simp [scanTags_cons, ih]

theorem goHasPre_append_self (pre s : List Char) :
    goHasPre (pre ++ s) pre = true := by
  rw [goHasPre, List.isPrefixOf_iff_prefix]
  exact List.prefix_append pre s

theorem goTrimPre_append_self (pre s : List Char) :
    goTrimPre (pre ++ s) pre = s := by
  rw [goTrimPre, if_pos (goHasPre_append_self pre s), List.drop_left]

theorem label_entry_not_tag_entry (s : List Char) :
    goHasPre (labelEnvKey ++ s) tagEnvKey = false := by
  have h1 : tagEnvKey = 'L' :: "OGSTASH_TAGS=".data := rfl
  have h2 : labelEnvKey = 'M' :: "ARATHON_APP_LABEL_".data := rfl
  rw [goHasPre, h1, h2, List.cons_append]
  simp [List.isPrefixOf]

theorem tagContrib_logstash (s : List Char) :
    tagContrib (tagEnvKey ++ s) = goSplit s ',' := by
  rw [tagContrib, if_pos (goHasPre_append_self tagEnvKey s), goTrimPre_append_self]

theorem tagContrib_label (s : List Char) :
    tagContrib (labelEnvKey ++ s) = [goReplaceAllEq s] := by
  rw [tagContrib, label_entry_not_tag_entry]
  simp only [Bool.false_eq_true, if_false]
  rw [if_pos (goHasPre_append_self labelEnvKey s), goTrimPre_append_self]

/-- C2: every `LOGSTASH_TAGS=` entry contributes, at its position in scan
order, exactly the comma-split segments of its remainder — byte-for-byte,
with no deduplication and no trimming — and several such entries (possible
inside `xs` and `ys`) each contribute independently, with no overwrite and
no early stop.  Concretely, `LOGSTASH_TAGS=a,b,c` yields tags `a`, `b`, `c`. -/
theorem logstash_tags_split_in_scan_order :
    (∀ (xs ys : List (List Char)) (s : List Char),
      scanTags (xs ++ (tagEnvKey ++ s) :: ys) =
        scanTags xs ++ goSplit s ',' ++ scanTags ys) ∧
    scanTags ["LOGSTASH_TAGS=a,b,c".data] = ["a".data, "b".data, "c".data] := by
  constructor
  · intro xs ys s
    rw [scanTags_middle, tagContrib_logstash]
  · decide

/-- C3 counterexample: the entry `MARATHON_APP_LABEL_A=b=c` produces the tag
`A_b_c` — every `=` is replaced — and not `A_b=c` as the claim (replace only
the first `=`) would require. -/
theorem label_tag_counterexample :
    scanTags ["MARATHON_APP_LABEL_A=b=c".data] = ["A_b_c".data] ∧
    scanTags ["MARATHON_APP_LABEL_A=b=c".data] ≠ ["A_b=c".data] := by
  decide

/-- C3 amended: a `MARATHON_APP_LABEL_` entry contributes, at its position
in scan order, one tag obtained by stripping the prefix and replacing every
`=` (not only the first) with `_`. -/
theorem label_tag_replaces_all_eq (xs ys : List (List Char)) (s : List Char) :
    scanTags (xs ++ (labelEnvKey ++ s) :: ys) =
      scanTags xs ++ [goReplaceAllEq s] ++ scanTags ys := by
  rw [scanTags_middle, tagContrib_label]

/-! ### The per-container tag cache -/

theorem mapSetFun_fst {v : Type} (k : List Char) (val : v) (q : List Char × v) :
    ((if q.1 == k then (q.1, val) else q).1) = q.1 := by
  by_cases hq : (q.1 == k) = true
  · simp [hq]
  · simp [hq]

theorem find?_mapSetFun {v : Type} (k k' : List Char) (val : v)
    (m : List (List Char × v)) :
    (m.map (fun q => if q.1 == k then (q.1, val) else q)).find? (fun q => q.1 == k') =
      (m.find? (fun q => q.1 == k')).map (fun q => if q.1 == k then (q.1, val) else q) := by
  induction m with
  | nil => rfl
  | cons q l ih =>
    rw [List.map_cons, List.find?_cons, List.find?_cons]
    have hfst : ((if q.1 == k then (q.1, val) else q).1 == k') = (q.1 == k') := by
      rw [mapSetFun_fst]
    rw [hfst]
    by_cases hq' : (q.1 == k') = true
    · rw [hq']
      rfl
    · have hq'' : (q.1 == k') = false := by simpa using hq'
      rw [hq'']
      exact ih

theorem mapLookup_mapSet_self {v : Type} (m : List (List Char × v))
    (k : List Char) (val : v) :
    mapLookup (mapSet m k val) k = some val := by
  by_cases h : (m.any fun q => q.1 == k) = true
  · rw [mapSet, if_pos h, mapLookup, find?_mapSetFun]
    have hsome : (m.find? (fun q => q.1 == k)).isSome = true := by
      rw [List.find?_isSome]
      obtain ⟨q, hqm, hqk⟩ := List.any_eq_true.mp h
      exact ⟨q, hqm, hqk⟩
    obtain ⟨r, hr⟩ := Option.isSome_iff_exists.mp hsome
    have hrk := List.find?_some hr
    have hr1 : r.1 = k := by simpa using hrk
    rw [hr]
    simp [hr1]
  · rw [mapSet, if_neg h, mapLookup, List.find?_append]
    have hnone : m.find? (fun q => q.1 == k) = none := by
      rw [List.find?_eq_none]
      intro x hx hxk
      exact h (List.any_eq_true.mpr ⟨x, hx, hxk⟩)
    rw [hnone, Option.none_or, List.find?_cons]
    have hk : (((k, val) : List Char × v).1 == k) = true := beq_self_eq_true k
    rw [hk]
    rfl

theorem mapLookup_mapSet_ne {v : Type} (m : List (List Char × v))
    (k k' : List Char) (val : v) (h : (k == k') = false) :
    mapLookup (mapSet m k val) k' = mapLookup m k' := by
  have hne : k ≠ k' := by simpa using h
  by_cases hany : (m.any fun q => q.1 == k) = true
  · rw [mapSet, if_pos hany, mapLookup, find?_mapSetFun, mapLookup]
    rcases hfind : m.find? (fun q => q.1 == k') with _ | r
    · rw [hfind]
      rfl
    · have hrk' := List.find?_some hfind
      have hr1 : r.1 = k' := by simpa using hrk'
      have hrne : ¬ r.1 = k := by
        rw [hr1]
        exact fun hc => hne hc.symm
      rw [hfind]
      simp [hrne]
  · rw [mapSet, if_neg hany, mapLookup, List.find?_append, mapLookup]
    have hone : List.find? (fun q => q.1 == k') [(k, val)] = none := by
      rw [List.find?_eq_none]
      intro x hx
      simp at hx
      subst hx
      simp [h]
    rw [hone, Option.or_none]

/-- C6: the cache contract of `GetContainerTags`.  First conjunct: on a hit
the cached tags are returned unchanged, the cache is untouched and zero
environment entries are scanned.  Second conjunct: for any starting cache
and container, a second call right after a first one (same environment
snapshot) returns the same tag sequence, leaves the cache as the first call
left it, and scans zero environment entries. -/
theorem container_tags_cached :
    (∀ (cache : TagCache) (c : Container) (ts : List (List Char)),
      mapLookup cache c.id = some ts → GetContainerTags cache c = (ts, cache, 0)) ∧
    (∀ (cache : TagCache) (c : Container),
      (GetContainerTags (GetContainerTags cache c).2.1 c).1 =
        (GetContainerTags cache c).1 ∧
      (GetContainerTags (GetContainerTags cache c).2.1 c).2.1 =
        (GetContainerTags cache c).2.1 ∧
      (GetContainerTags (GetContainerTags cache c).2.1 c).2.2 = 0) := by
  constructor
  · intro cache c ts h
    rw [GetContainerTags, h]
  · intro cache c
    rcases h : mapLookup cache c.id with _ | ts
    · have h1 : GetContainerTags cache c =
          (scanTags c.env, mapSet cache c.id (scanTags c.env), c.env.length) := by
        rw [GetContainerTags, h]
      have h2 : mapLookup (mapSet cache c.id (scanTags c.env)) c.id =
          some (scanTags c.env) := mapLookup_mapSet_self cache c.id (scanTags c.env)
      rw [h1]
      rw [show (GetContainerTags (scanTags c.env, mapSet cache c.id (scanTags c.env),
        c.env.length).2.1 c) = (scanTags c.env, mapSet cache c.id (scanTags c.env), 0) by
          rw [GetContainerTags, h2]]
      exact ⟨rfl, rfl, rfl⟩
    · have h1 : GetContainerTags cache c = (ts, cache, 0) := by
        rw [GetContainerTags, h]
      rw [h1]
      rw [show GetContainerTags (ts, cache, 0).2.1 c = (ts, cache, 0) by
        rw [GetContainerTags, h]]
      exact ⟨rfl, rfl, rfl⟩

/-- C6 witness: a concrete cache hit returns the stored tags with no scan,
and a concrete second call after a miss returns the first call's result
with no scan. -/
theorem container_tags_cached_witness :
    GetContainerTags [("c1".data, ["prod".data])] ⟨"c1".data, ["LOGSTASH_TAGS=x".data]⟩ =
      (["prod".data], [("c1".data, ["prod".data])], 0) ∧
    (GetContainerTags (GetContainerTags [] ⟨"c1".data, ["LOGSTASH_TAGS=x".data]⟩).2.1
      ⟨"c1".data, ["LOGSTASH_TAGS=x".data]⟩).2.2 = 0 := by
  constructor
  · exact container_tags_cached.1 [("c1".data, ["prod".data])]
      ⟨"c1".data, ["LOGSTASH_TAGS=x".data]⟩ ["prod".data] (by decide)
  · exact (container_tags_cached.2 [] ⟨"c1".data, ["LOGSTASH_TAGS=x".data]⟩).2.2

theorem scanTags_eq_nil_of_noMatch (env : List (List Char))
    (h : ∀ e ∈ env, goHasPre e tagEnvKey = false ∧ goHasPre e labelEnvKey = false) :
    scanTags env = [] := by
  induction env with
  | nil => rfl
  | cons e env ih =>
    rw [scanTags_cons, tagContrib, (h e (List.mem_cons_self e env)).1,
      (h e (List.mem_cons_self e env)).2]
    simp only [Bool.false_eq_true, if_false, List.nil_append]
    exact ih fun x hx => h x (List.mem_cons_of_mem e hx)

/-- C10: the environment entry that is exactly `LOGSTASH_TAGS=` contributes
one empty-string tag (splitting the empty remainder on a comma yields a
single empty segment); and, on a cache miss, a container none of whose
environment entries carries a tag prefix gets the empty tag list — never an
absent value — which is then stored in the cache under its identifier. -/
theorem empty_tags_value_and_no_match :
    scanTags ["LOGSTASH_TAGS=".data] = [[]] ∧
    (∀ (cache : TagCache) (c : Container),
      (∀ e ∈ c.env, goHasPre e tagEnvKey = false ∧ goHasPre e labelEnvKey = false) →
      mapLookup cache c.id = none →
      GetContainerTags cache c = ([], mapSet cache c.id [], c.env.length)) := by
  constructor
  · decide
  · intro cache c henv hmiss
    rw [GetContainerTags, hmiss, scanTags_eq_nil_of_noMatch c.env henv]

/-- C10 witness: a concrete container with one non-matching environment
entry and an empty cache gets the empty tag list, stored under its ID. -/
theorem empty_tags_value_and_no_match_witness :
    GetContainerTags [] ⟨"c1".data, ["PATH=/usr/bin".data]⟩ =
      ([], [("c1".data, [])], 1) := by
  exact empty_tags_value_and_no_match.2 [] ⟨"c1".data, ["PATH=/usr/bin".data]⟩
    (by decide) (by decide)

/-- C5: refuted by the code — an environment entry that has the
`MARATHON_APP_LABEL_` prefix but no `=` separator makes both metadata
extractors index `kv[1]` on a one-element slice, a Go out-of-range panic
(modelled as `none`), rather than leaving the facets empty. -/
theorem label_without_eq_panics :
    GetMarathonInfo ["MARATHON_APP_LABEL_FOO".data] = none ∧
    GetMarathonData ["MARATHON_APP_LABEL_FOO".data] = none := by
  decide

/-- C4: refuted by the code — revision two's `GetMarathonData` never
initialises its `Resource` and `Label` maps, so the very first
`MARATHON_APP_RESOURCE_CPUS=` (or label) entry writes into a Go `nil` map
and panics (modelled as `none`) instead of yielding the `cpus` resource
entry; only the plain string facets (identity, version, image) are ever
populated.  Revision one's `GetMarathonInfo` — the extractor its `Stream`
actually ships — ignores the identity, version and resource entries
entirely and produces a label map alone. -/
theorem marathon_facets_not_populated :
    GetMarathonData ["MARATHON_APP_RESOURCE_CPUS=0.01".data] = none ∧
    GetMarathonData ["MARATHON_APP_LABEL_ENVIRONMENT=prod".data] = none ∧
    GetMarathonData ["MARATHON_APP_ID=/svc".data, "MARATHON_APP_VERSION=2016".data] =
      some { id := "/svc".data, version := "2016".data } ∧
    GetMarathonInfo ["MARATHON_APP_ID=/svc".data, "MARATHON_APP_VERSION=2016".data] =
      some [] := by
  decide

/-! ### The Record Composer -/

/-- A generic JSON value, the model of Go's `interface\x7b\x7d` results of
`json.Unmarshal` and of the values handed to `json.Marshal`; objects are
key-ordered association lists (`map[string]interface` entries). -/
inductive Json where
  | null
  | bool (b : Bool)
  | num (n : Int)
  | str (s : List Char)
  | arr (elems : List Json)
  | obj (fields : List (List Char × Json))

/-- The `DockerInfo` struct of the adapter. -/
structure DockerInfo where
  name : List Char
  id : List Char
  image : List Char
  hostname : List Char
deriving DecidableEq

/-- The JSON rendering of `DockerInfo`, following its struct tags. -/
def dockerJson (d : DockerInfo) : Json :=
  .obj [("name".data, .str d.name), ("id".data, .str d.id),
    ("image".data, .str d.image), ("hostname".data, .str d.hostname)]

/-- The JSON rendering of revision one's marathon label map
(`map[string]string`). -/
def marathonJson (mi : List (List Char × List Char)) : Json :=
  .obj (mi.map (fun p => (p.1, Json.str p.2)))

/-- The JSON rendering of the tag slice (`[]string`). -/
def tagsJson (tags : List (List Char)) : Json :=
  .arr (tags.map Json.str)

/-- Revision one's `LogstashMessage` struct, the freshly constructed record
of the non-JSON fallback path, fields in declaration order. -/
structure LogstashMessage where
  message : List Char
  stream : List Char
  docker : DockerInfo
  marathon : List (List Char × List Char)
  tags : List (List Char)

/-- The value the `Stream` loop hands to `json.Marshal`: either the fresh
`LogstashMessage` (payload was not JSON) or the parsed payload mapping with
the reserved fields merged in. -/
inductive OutboundRecord where
  | fallback (msg : LogstashMessage)
  | merged (data : List (List Char × Json))

/-- The four reserved top-level keys the merged path assigns. -/
def reservedKeys : List (List Char) :=
  ["docker".data, "tags".data, "stream".data, "marathon".data]

/-- The four Go map assignments of the already-JSON branch, in source
order: `docker`, `tags`, `stream`, `marathon`. -/
def mergeReserved (data : List (List Char × Json)) (d : DockerInfo)
    (tags : List (List Char)) (strm : List Char)
    (mi : List (List Char × List Char)) : List (List Char × Json) :=
  mapSet (mapSet (mapSet (mapSet data "docker".data (dockerJson d))
    "tags".data (tagsJson tags)) "stream".data (.str strm))
    "marathon".data (marathonJson mi)

/-- The Record Composer of `Stream`: `parsed` is the result of
`json.Unmarshal` of the message text into `map[string]interface` (`none`
when the payload is not a JSON object).  On failure a fresh
`LogstashMessage` is built; on success the reserved keys are set on the
parsed mapping. -/
def composeRecord (parsed : Option (List (List Char × Json)))
    (raw strm : List Char) (d : DockerInfo)
    (mi : List (List Char × List Char)) (tags : List (List Char)) :
    OutboundRecord :=
  match parsed with
  | none => .fallback ⟨raw, strm, d, mi, tags⟩
  | some data => .merged (mergeReserved data d tags strm mi)

/-- The top-level keys of an object's field list. -/
def objKeys (m : List (List Char × Json)) : List (List Char) :=
  m.map (fun p => p.1)

/-- The composed record viewed as a JSON object before serialisation: the
fallback record lists its five struct fields in declaration order, the
merged record is the mapping itself. -/
def recordObj : OutboundRecord → List (List Char × Json)
  | .fallback msg =>
    [("message".data, .str msg.message), ("stream".data, .str msg.stream),
     ("docker".data, dockerJson msg.docker),
     ("marathon".data, marathonJson msg.marathon),
     ("tags".data, tagsJson msg.tags)]
  | .merged data => data

/-- The object `json.Marshal` actually serialises.  The struct's
`marathon` field carries the `omitempty` option, so in the fallback shape
the key is left out when the label map is empty; the merged shape is the
`map[string]interface` value itself, where every key is rendered. -/
def wireObj : OutboundRecord → List (List Char × Json)
  | .fallback msg =>
    [("message".data, .str msg.message), ("stream".data, .str msg.stream),
     ("docker".data, dockerJson msg.docker)] ++
    (if msg.marathon.isEmpty then []
     else [("marathon".data, marathonJson msg.marathon)]) ++
    [("tags".data, tagsJson msg.tags)]
  | .merged data => data

theorem mapLookup_mergeReserved_docker (data : List (List Char × Json))
    (d : DockerInfo) (tags : List (List Char)) (strm : List Char)
    (mi : List (List Char × List Char)) :
    mapLookup (mergeReserved data d tags strm mi) "docker".data = some (dockerJson d) := by
  rw [mergeReserved, mapLookup_mapSet_ne _ _ _ _ (by decide),
    mapLookup_mapSet_ne _ _ _ _ (by decide),
    mapLookup_mapSet_ne _ _ _ _ (by decide), mapLookup_mapSet_self]

theorem mapLookup_mergeReserved_tags (data : List (List Char × Json))
    (d : DockerInfo) (tags : List (List Char)) (strm : List Char)
    (mi : List (List Char × List Char)) :
    mapLookup (mergeReserved data d tags strm mi) "tags".data = some (tagsJson tags) := by
  rw [mergeReserved, mapLookup_mapSet_ne _ _ _ _ (by decide),
    mapLookup_mapSet_ne _ _ _ _ (by decide), mapLookup_mapSet_self]

theorem mapLookup_mergeReserved_stream (data : List (List Char × Json))
    (d : DockerInfo) (tags : List (List Char)) (strm : List Char)
    (mi : List (List Char × List Char)) :
    mapLookup (mergeReserved data d tags strm mi) "stream".data = some (Json.str strm) := by
  rw [mergeReserved, mapLookup_mapSet_ne _ _ _ _ (by decide), mapLookup_mapSet_self]

theorem mapLookup_mergeReserved_marathon (data : List (List Char × Json))
    (d : DockerInfo) (tags : List (List Char)) (strm : List Char)
    (mi : List (List Char × List Char)) :
    mapLookup (mergeReserved data d tags strm mi) "marathon".data =
      some (marathonJson mi) := by
  rw [mergeReserved, mapLookup_mapSet_self]

theorem mapLookup_mergeReserved_other (data : List (List Char × Json))
    (d : DockerInfo) (tags : List (List Char)) (strm : List Char)
    (mi : List (List Char × List Char)) (k : List Char) (hk : k ∉ reservedKeys) :
    mapLookup (mergeReserved data d tags strm mi) k = mapLookup data k := by
  have hd : ("docker".data == k) = false := by
    simp only [beq_eq_false_iff_ne]
    intro h
    exact hk (by rw [← h]; decide)
  have ht : ("tags".data == k) = false := by
    simp only [beq_eq_false_iff_ne]
    intro h
    exact hk (by rw [← h]; decide)
  have hs : ("stream".data == k) = false := by
    simp only [beq_eq_false_iff_ne]
    intro h
    exact hk (by rw [← h]; decide)
  have hm : ("marathon".data == k) = false := by
    simp only [beq_eq_false_iff_ne]
    intro h
    exact hk (by rw [← h]; decide)
  rw [mergeReserved, mapLookup_mapSet_ne _ _ _ _ hm, mapLookup_mapSet_ne _ _ _ _ hs,
    mapLookup_mapSet_ne _ _ _ _ ht, mapLookup_mapSet_ne _ _ _ _ hd]

/-- C1: the Record Composer produces exactly one outbound record per
message.  When the payload does not parse, the record is the freshly built
`LogstashMessage` with exactly the five fields `message` (the raw text),
`stream`, `docker`, `marathon` and `tags`.  When it parses to a mapping,
the record is that mapping with the four reserved keys `docker`, `tags`,
`stream` and `marathon` set or overwritten (clobbering any pre-existing
field of those names) while every other top-level key keeps its value. -/
theorem record_composer_shapes (raw strm : List Char) (d : DockerInfo)
    (mi : List (List Char × List Char)) (tags : List (List Char)) :
    (composeRecord none raw strm d mi tags = .fallback ⟨raw, strm, d, mi, tags⟩ ∧
      objKeys (recordObj (composeRecord none raw strm d mi tags)) =
        ["message".data, "stream".data, "docker".data, "marathon".data, "tags".data]) ∧
    (∀ data : List (List Char × Json),
      composeRecord (some data) raw strm d mi tags =
        .merged (mergeReserved data d tags strm mi) ∧
      mapLookup (mergeReserved data d tags strm mi) "docker".data = some (dockerJson d) ∧
      mapLookup (mergeReserved data d tags strm mi) "tags".data = some (tagsJson tags) ∧
      mapLookup (mergeReserved data d tags strm mi) "stream".data = some (Json.str strm) ∧
      mapLookup (mergeReserved data d tags strm mi) "marathon".data =
        some (marathonJson mi) ∧
      (∀ k, k ∉ reservedKeys →
        mapLookup (mergeReserved data d tags strm mi) k = mapLookup data k)) := by
  refine ⟨⟨rfl, rfl⟩, ?_⟩
  intro data
  exact ⟨rfl, mapLookup_mergeReserved_docker data d tags strm mi,
    mapLookup_mergeReserved_tags data d tags strm mi,
    mapLookup_mergeReserved_stream data d tags strm mi,
    mapLookup_mergeReserved_marathon data d tags strm mi,
    fun k hk => mapLookup_mergeReserved_other data d tags strm mi k hk⟩

/-- C1 witness: on the concrete parsed payload with keys `a` and a
pre-existing `tags`, the merged record keeps `a` untouched and clobbers
`tags` with the computed tag array. -/
theorem record_composer_shapes_witness :
    mapLookup (mergeReserved [("a".data, Json.num 1), ("tags".data, Json.str "pre".data)]
      ⟨"n".data, "i".data, "img".data, "h".data⟩ ["prod".data] "stdout".data [])
      "a".data = some (Json.num 1) ∧
    mapLookup (mergeReserved [("a".data, Json.num 1), ("tags".data, Json.str "pre".data)]
      ⟨"n".data, "i".data, "img".data, "h".data⟩ ["prod".data] "stdout".data [])
      "tags".data = some (tagsJson ["prod".data]) := by
  have h := (record_composer_shapes "hello".data "stdout".data
    ⟨"n".data, "i".data, "img".data, "h".data⟩ [] ["prod".data]).2
    [("a".data, Json.num 1), ("tags".data, Json.str "pre".data)]
  constructor
  · rw [h.2.2.2.2.2 "a".data (by decide)]
    rfl
  · exact h.2.2.1

/-- C9 counterexample: a payload that parses (the empty JSON object)
combined with completely empty scheduler metadata still yields a wire
record whose top-level `marathon` key is present — bound to the empty
object — because the merged branch assigns the key unconditionally into
the map; the claim says the key is omitted in that shape too. -/
theorem marathon_key_present_when_empty :
    mapLookup (wireObj (composeRecord (some []) "hello".data "stdout".data
      ⟨"n".data, "i".data, "img".data, "h".data⟩ [] [])) "marathon".data =
      some (Json.obj []) ∧
    "marathon".data ∈ objKeys (wireObj (composeRecord (some []) "hello".data
      "stdout".data ⟨"n".data, "i".data, "img".data, "h".data⟩ [] [])) := by
  constructor
  · rfl
  · decide

/-- C9 amended: in the raw-text fallback shape the `marathon` key is
omitted exactly when the label map is empty (the struct field's
`omitempty`), and carries the metadata object otherwise; in the merged
already-JSON shape the `marathon` key is always present (the empty object
when every facet is empty), and when present it is the metadata object. -/
theorem marathon_key_wire_shape (raw strm : List Char) (d : DockerInfo)
    (mi : List (List Char × List Char)) (tags : List (List Char)) :
    ("marathon".data ∈ objKeys (wireObj (composeRecord none raw strm d mi tags)) ↔
      mi ≠ []) ∧
    (mi ≠ [] → mapLookup (wireObj (composeRecord none raw strm d mi tags))
      "marathon".data = some (marathonJson mi)) ∧
    (∀ data, mapLookup (wireObj (composeRecord (some data) raw strm d mi tags))
      "marathon".data = some (marathonJson mi)) := by
  refine ⟨?_, ?_, ?_⟩
  · rcases mi with _ | ⟨p, mi'⟩
    · have hobj : objKeys (wireObj (composeRecord none raw strm d [] tags)) =
          ["message".data, "stream".data, "docker".data, "tags".data] := rfl
      rw [hobj]
      simp
    · have hobj : objKeys (wireObj (composeRecord none raw strm d (p :: mi') tags)) =
          ["message".data, "stream".data, "docker".data, "marathon".data,
           "tags".data] := rfl
      rw [hobj]
      simp
  · intro hmi
    rcases mi with _ | ⟨p, mi'⟩
    · exact absurd rfl hmi
    · have h1 : ("message".data == "marathon".data) = false := by decide
      have h2 : ("stream".data == "marathon".data) = false := by decide
      have h3 : ("docker".data == "marathon".data) = false := by decide
      have h4 : ("marathon".data == "marathon".data) = true := by decide
      show mapLookup ([("message".data, Json.str raw), ("stream".data, Json.str strm),
        ("docker".data, dockerJson d)] ++
        [("marathon".data, marathonJson (p :: mi'))] ++
        [("tags".data, tagsJson tags)]) "marathon".data = some (marathonJson (p :: mi'))
      rw [mapLookup, List.find?_append, List.find?_append, List.find?_cons,
        List.find?_cons, List.find?_cons, List.find?_cons, h1, h2, h3, h4]
      rfl
  · intro data
    exact mapLookup_mergeReserved_marathon data d tags strm mi

/-- C9 witness: with one label present, the fallback wire record carries
the `marathon` key bound to the metadata object. -/
theorem marathon_key_wire_shape_witness :
    mapLookup (wireObj (composeRecord none "hello".data "stdout".data
      ⟨"n".data, "i".data, "img".data, "h".data⟩
      [("ENVIRONMENT".data, "prod".data)] [])) "marathon".data =
      some (marathonJson [("ENVIRONMENT".data, "prod".data)]) := by
  exact (marathon_key_wire_shape "hello".data "stdout".data
    ⟨"n".data, "i".data, "img".data, "h".data⟩
    [("ENVIRONMENT".data, "prod".data)] []).2.1 (by decide)

/-! ### The Forwarder's serialisation and framing -/

/-- The lower-case hexadecimal digit characters. -/
def hexChars : List Char := "0123456789abcdef".data

/-- The hexadecimal digit for `n` (digits 0-9 double as decimal digits). -/
def hexDigit (n : Nat) : Char := hexChars.getD n '0'

/-- The JSON string escape of one character, after Go's `encoding/json`
encoder: quote, backslash and the control characters newline, carriage return
and tab get two-character escapes, other control characters a `\u00XX`
escape, and everything else passes through. -/
def escapeChar (c : Char) : List Char :=
  if c = '\"' then ['\\', '\"']
  else if c = '\\' then ['\\', '\\']
  else if c = '\n' then ['\\', 'n']
  else if c = '\r' then ['\\', 'r']
  else if c = '\t' then ['\\', 't']
  else if c.toNat < 32 then
    ['\\', 'u', '0', '0', hexDigit (c.toNat / 16), hexDigit (c.toNat % 16)]
  else [c]

/-- A JSON string literal: quoted, characters escaped. -/
def encodeString (s : List Char) : List Char :=
  '\"' :: ((s.map escapeChar).flatten ++ ['\"'])

/-- The decimal digits of a natural number. -/
def natDigits (n : Nat) : List Char :=
  if n < 10 then [hexDigit n] else natDigits (n / 10) ++ [hexDigit (n % 10)]
decreasing_by
  exact Nat.div_lt_self (by omega) (by omega)

/-- The decimal rendering of an integer. -/
def encodeInt (n : Int) : List Char :=
  if n < 0 then '-' :: natDigits n.natAbs else natDigits n.toNat

mutual

/-- The JSON serialisation of a value (Go's `json.Marshal` on the model). -/
def encodeJson : Json → List Char
  | .null => "null".data
  | .bool b => if b then "true".data else "false".data
  | .num n => encodeInt n
  | .str s => encodeString s
  | .arr xs => '[' :: (encodeElems xs ++ [']'])
  | .obj fs => '\x7b' :: (encodeFields fs ++ ['\x7d'])

/-- Comma-separated serialisation of array elements. -/
def encodeElems : List Json → List Char
  | [] => []
  | [x] => encodeJson x
  | x :: y :: xs => encodeJson x ++ ',' :: encodeElems (y :: xs)

/-- Comma-separated serialisation of object fields (`"key":value`). -/
def encodeFields : List (List Char × Json) → List Char
  | [] => []
  | [(k, v)] => encodeString k ++ ':' :: encodeJson v
  | (k, v) :: f :: fs => (encodeString k ++ ':' :: encodeJson v) ++ ',' :: encodeFields (f :: fs)

end

theorem hexDigit_ne_nl (n : Nat) : hexDigit n ≠ '\n' := by
  rw [hexDigit, List.getD]
  rcases h : hexChars.get? n with _ | c
  · decide
  · have hc : c ∈ hexChars := List.get?_mem h
    have hall : ∀ x ∈ hexChars, x ≠ '\n' := by decide
    simpa using hall c hc

theorem escapeChar_no_nl (c : Char) : '\n' ∉ escapeChar c := by
  rw [escapeChar]
  split_ifs with h1 h2 h3 h4 h5 h6
  · decide
  · decide
  · decide
  · decide
  · decide
  · intro hmem
    simp only [List.mem_cons, List.not_mem_nil, or_false] at hmem
    rcases hmem with h | h | h | h | h | h
    · exact absurd h (by decide)
    · exact absurd h (by decide)
    · exact absurd h (by decide)
    · exact absurd h (by decide)
    · exact hexDigit_ne_nl _ h.symm
    · exact hexDigit_ne_nl _ h.symm
  · intro hmem
    simp only [List.mem_cons, List.not_mem_nil, or_false] at hmem
    exact h3 hmem.symm

theorem encodeString_no_nl (s : List Char) : '\n' ∉ encodeString s := by
  rw [encodeString]
  intro hmem
  rcases List.mem_cons.mp hmem with h | h
  · exact absurd h (by decide)
  · rcases List.mem_append.mp h with h | h
    · rcases List.mem_flatten.mp h with ⟨l, hl, hnl⟩
      rcases List.mem_map.mp hl with ⟨c, _, rfl⟩
      exact escapeChar_no_nl c hnl
    · simp only [List.mem_cons, List.not_mem_nil, or_false] at h
      exact absurd h (by decide)

theorem natDigits_no_nl (n : Nat) : '\n' ∉ natDigits n := by
  induction n using Nat.strong_induction_on with
  | _ n ih =>
    rw [natDigits]
    split_ifs with h
    · intro hm
      simp only [List.mem_cons, List.not_mem_nil, or_false] at hm
      exact hexDigit_ne_nl n hm.symm
    · intro hm
      rcases List.mem_append.mp hm with h2 | h2
      · exact ih (n / 10) (Nat.div_lt_self (by omega) (by omega)) h2
      · simp only [List.mem_cons, List.not_mem_nil, or_false] at h2
        exact hexDigit_ne_nl _ h2.symm

theorem encodeInt_no_nl (n : Int) : '\n' ∉ encodeInt n := by
  rw [encodeInt]
  split_ifs with h
  · intro hm
    rcases List.mem_cons.mp hm with h2 | h2
    · exact absurd h2 (by decide)
    · exact natDigits_no_nl _ h2
  · exact natDigits_no_nl _

theorem json_sizeOf_pos (j : Json) : 1 ≤ sizeOf j := by
  cases j <;> simp

theorem encode_no_nl_sized (N : Nat) :
    (∀ j : Json, sizeOf j ≤ N → '\n' ∉ encodeJson j) ∧
    (∀ xs : List Json, sizeOf xs ≤ N → '\n' ∉ encodeElems xs) ∧
    (∀ fs : List (List Char × Json), sizeOf fs ≤ N → '\n' ∉ encodeFields fs) := by
  induction N with
  | zero =>
    refine ⟨fun j hj => absurd hj ?_, fun xs hxs => absurd hxs ?_,
      fun fs hfs => absurd hfs ?_⟩
    · have := json_sizeOf_pos j
      omega
    · cases xs <;> simp
    · cases fs <;> simp
  | succ N ih =>
    obtain ⟨ihj, ihl, ihf⟩ := ih
    refine ⟨?_, ?_, ?_⟩
    · intro j hj
      cases j with
      | null =>
        simp only [encodeJson]
        decide
      | bool b =>
        cases b <;> simp only [encodeJson] <;> decide
      | num n =>
        simp only [encodeJson]
        exact encodeInt_no_nl n
      | str s =>
        simp only [encodeJson]
        exact encodeString_no_nl s
      | arr xs =>
        simp only [encodeJson]
        intro hm
        have hsz : sizeOf (Json.arr xs) = 1 + sizeOf xs := by simp
        rcases List.mem_cons.mp hm with h | h
        · exact absurd h (by decide)
        · rcases List.mem_append.mp h with h | h
          · exact ihl xs (by omega) h
          · simp only [List.mem_cons, List.not_mem_nil, or_false] at h
            exact absurd h (by decide)
      | obj fs =>
        simp only [encodeJson]
        intro hm
        have hsz : sizeOf (Json.obj fs) = 1 + sizeOf fs := by simp
        rcases List.mem_cons.mp hm with h | h
        · exact absurd h (by decide)
        · rcases List.mem_append.mp h with h | h
          · exact ihf fs (by omega) h
          · simp only [List.mem_cons, List.not_mem_nil, or_false] at h
            exact absurd h (by decide)
    · intro xs hxs
      rcases xs with _ | ⟨x, _ | ⟨y, zs⟩⟩
      · simp only [encodeElems]
        exact List.not_mem_nil '\n'
      · simp only [encodeElems]
        have h1 : sizeOf ([x] : List Json) = 1 + sizeOf x + 1 := by simp
        exact ihj x (by omega)
      · simp only [encodeElems]
        intro hm
        have hx : 1 ≤ sizeOf x := json_sizeOf_pos x
        have hy : 1 ≤ sizeOf y := json_sizeOf_pos y
        have hsz : sizeOf (x :: y :: zs : List Json) =
            1 + sizeOf x + (1 + sizeOf y + sizeOf zs) := by simp
        have h2 : sizeOf (y :: zs : List Json) = 1 + sizeOf y + sizeOf zs := by simp
        rcases List.mem_append.mp hm with h | h
        · exact ihj x (by omega) h
        · rcases List.mem_cons.mp h with h | h
          · exact absurd h (by decide)
          · exact ihl (y :: zs) (by omega) h
    · intro fs hfs
      rcases fs with _ | ⟨⟨k, v⟩, _ | ⟨f, gs⟩⟩
      · simp only [encodeFields]
        exact List.not_mem_nil '\n'
      · simp only [encodeFields]
        intro hm
        have h1 : sizeOf ([(k, v)] : List (List Char × Json)) =
            1 + (1 + sizeOf k + sizeOf v) + 1 := by simp
        rcases List.mem_append.mp hm with h | h
        · exact encodeString_no_nl k h
        · rcases List.mem_cons.mp h with h | h
          · exact absurd h (by decide)
          · exact ihj v (by omega) h
      · simp only [encodeFields]
        intro hm
        have hv : 1 ≤ sizeOf v := json_sizeOf_pos v
        have hsz : sizeOf ((k, v) :: f :: gs : List (List Char × Json)) =
            1 + (1 + sizeOf k + sizeOf v) +
              sizeOf (f :: gs : List (List Char × Json)) := by simp
        rcases List.mem_append.mp hm with h | h
        · rcases List.mem_append.mp h with h | h
          · exact encodeString_no_nl k h
          · rcases List.mem_cons.mp h with h | h
            · exact absurd h (by decide)
            · exact ihj v (by omega) h
        · rcases List.mem_cons.mp h with h | h
          · exact absurd h (by decide)
          · exact ihf (f :: gs) (by omega) h

theorem encodeJson_no_nl (j : Json) : '\n' ∉ encodeJson j :=
  (encode_no_nl_sized (sizeOf j)).1 j (Nat.le_refl _)

/-- The JSON value `json.Marshal` receives, from the wire-level object. -/
def wireJson (r : OutboundRecord) : Json := .obj (wireObj r)

/-- The buffer `Stream` writes to the connection: the serialisation with
the single framing newline appended (`js = append(js, byte('\n'))`). -/
def wireBuffer (r : OutboundRecord) : List Char :=
  encodeJson (wireJson r) ++ ['\n']

/-- C7: every transmitted buffer is the JSON serialisation of the composed
record followed by exactly one trailing newline byte; the serialisation
itself contains no unescaped newline, so the buffer holds exactly one
newline, as its final byte — each record occupies one line on the wire. -/
theorem framing_single_trailing_newline (r : OutboundRecord) :
    wireBuffer r = encodeJson (wireJson r) ++ ['\n'] ∧
    '\n' ∉ encodeJson (wireJson r) ∧
    (wireBuffer r).count '\n' = 1 ∧
    (wireBuffer r).getLast? = some '\n' := by
  refine ⟨rfl, encodeJson_no_nl (wireJson r), ?_, ?_⟩
  · rw [wireBuffer, List.count_append,
      List.count_eq_zero.mpr (encodeJson_no_nl (wireJson r))]
    rfl
  · rw [wireBuffer]
    exact List.getLast?_concat _

/-! ### The Forwarder loop's failure policy -/

/-- The observables of one iteration of `Stream`'s `for m := range
logstream` loop: the serialised record the iteration would produce, an
oracle for whether `json.Marshal` succeeds, and an oracle for whether
`conn.Write` succeeds. -/
structure InboundStep where
  record : List Char
  marshalOk : Bool
  writeOk : Bool
deriving DecidableEq

/-- How the loop ends: the inbound stream drained normally, or `log.Fatal`
killed the process on a write error.  Either way the successfully written
buffers are carried, in order. -/
inductive StreamOutcome where
  | drained (sent : List (List Char))
  | died (sent : List (List Char))
deriving DecidableEq

/-- The control flow of `Stream`'s loop.  Marshal failure logs and
`continue`s to the next message; on success the newline is appended and the
buffer written; a write failure is `log.Fatal` — the process dies and no
further message is processed. -/
def streamLoop : List InboundStep → StreamOutcome
  | [] => .drained []
  | m :: rest =>
    if m.marshalOk then
      if m.writeOk then
        match streamLoop rest with
        | .drained s => .drained ((m.record ++ ['\n']) :: s)
        | .died s => .died ((m.record ++ ['\n']) :: s)
      else .died []
    else streamLoop rest

theorem streamLoop_cons_ok (p : InboundStep) (l : List InboundStep)
    (hp : p.marshalOk = true) (hw : p.writeOk = true) :
    streamLoop (p :: l) =
      match streamLoop l with
      | .drained s => .drained ((p.record ++ ['\n']) :: s)
      | .died s => .died ((p.record ++ ['\n']) :: s) := by
  rw [streamLoop, if_pos hp, if_pos hw]

/-- C8: first conjunct — a message whose serialisation fails is dropped and
invisible: the loop behaves exactly as if the message had not been there,
so processing continues with the next inbound message and the process does
not terminate on its account.  Second conjunct — when a write fails (after
any prefix of fully successful messages), the loop dies having sent exactly
the prefix's buffers, and the outcome does not depend on the messages after
the failing one: no subsequent message is processed. -/
theorem marshal_drops_write_kills :
    (∀ (pre rest : List InboundStep) (m : InboundStep), m.marshalOk = false →
      streamLoop (pre ++ m :: rest) = streamLoop (pre ++ rest)) ∧
    (∀ (pre rest rest' : List InboundStep) (m : InboundStep),
      (∀ p ∈ pre, p.marshalOk = true ∧ p.writeOk = true) →
      m.marshalOk = true → m.writeOk = false →
      streamLoop (pre ++ m :: rest) =
        .died (pre.map (fun p => p.record ++ ['\n'])) ∧
      streamLoop (pre ++ m :: rest) = streamLoop (pre ++ m :: rest')) := by
  constructor
  · intro pre rest m hm
    induction pre with
    | nil => simp [streamLoop, hm]
    | cons p pre ih =>
      by_cases hp : p.marshalOk = true
      · by_cases hw : p.writeOk = true
        · simp [streamLoop, hp, hw, ih]
        · simp [streamLoop, hp, hw]
      · simp [streamLoop, hp, ih]
  · intro pre rest rest' m hpre hm hw
    induction pre with
    | nil =>
      constructor
      · simp [streamLoop, hm, hw]
      · simp [streamLoop, hm, hw]
    | cons p pre ih =>
      have hp := hpre p (List.mem_cons_self p pre)
      have ih2 := ih (fun q hq => hpre q (List.mem_cons_of_mem p hq))
      constructor
      · rw [List.cons_append, streamLoop_cons_ok p _ hp.1 hp.2, ih2.1]
        rfl
      · rw [List.cons_append, List.cons_append, streamLoop_cons_ok p _ hp.1 hp.2,
          streamLoop_cons_ok p _ hp.1 hp.2, ih2.2]

/-- C8 witness: concretely, a marshal failure in the middle of the stream
leaves the loop's outcome that of the remaining messages, and a write
failure after one successful message kills the loop with exactly that one
buffer sent, whatever follows. -/
theorem marshal_drops_write_kills_witness :
    streamLoop [⟨"a".data, true, true⟩, ⟨"b".data, false, true⟩,
      ⟨"c".data, true, true⟩] =
      streamLoop [⟨"a".data, true, true⟩, ⟨"c".data, true, true⟩] ∧
    streamLoop [⟨"a".data, true, true⟩, ⟨"b".data, true, false⟩,
      ⟨"c".data, true, true⟩] = .died ["a\n".data] ∧
    streamLoop [⟨"a".data, true, true⟩, ⟨"b".data, true, false⟩,
      ⟨"c".data, true, true⟩] =
      streamLoop [⟨"a".data, true, true⟩, ⟨"b".data, true, false⟩] := by
  refine ⟨?_, ?_, ?_⟩
  · exact marshal_drops_write_kills.1 [⟨"a".data, true, true⟩]
      [⟨"c".data, true, true⟩] ⟨"b".data, false, true⟩ rfl
  · exact (marshal_drops_write_kills.2 [⟨"a".data, true, true⟩]
      [⟨"c".data, true, true⟩] [] ⟨"b".data, true, false⟩
      (by decide) rfl rfl).1
  · exact (marshal_drops_write_kills.2 [⟨"a".data, true, true⟩]
      [⟨"c".data, true, true⟩] [] ⟨"b".data, true, false⟩
      (by decide) rfl rfl).2
